import Mathlib

/-!
Verification of the atlas-composition subsystem of the msdf-generator
repository: the layout planner, glyph coordinate remapper and document
update of `src/genFont.ts`, the metrics adjuster of `adjustFont`, and the
family aggregation of `genFont.ts` (family mode).

All definitions are shallow embeddings of the TypeScript/JavaScript source.
JavaScript numbers that hold pixel coordinates and metrics are embedded as
`Int` (all operations involved are integral); page counts and indices as
`Nat`.  Side effects (console warnings, file writes) are embedded as
explicitly returned values where a claim observes them.
-/

/-- One raster page dimension pair, the shape of the objects passed to
`calculateOptimalLayout` (built in `stitchTextures` as
`images.map(img => ({width: img.width, height: img.height}))`). -/
structure Dim where
  width : Nat
  height : Nat
deriving DecidableEq

/-- One placement rectangle of a layout plan (an element of
`TextureLayout.positions` in `genFont.ts`). -/
structure PagePosition where
  x : Int
  y : Int
  width : Int
  height : Int
deriving DecidableEq

/-- The layout plan returned by `calculateOptimalLayout`. -/
structure TextureLayout where
  width : Int
  height : Int
  positions : List PagePosition
deriving DecidableEq

/-- The padding constant `PADDING = 2` of `calculateOptimalLayout`. -/
def PADDING : Nat := 2

/-- JavaScript `n || 512` on a width/height value: `0` is falsy and is
replaced by the 512 default. -/
def orDefault (n : Nat) : Nat :=
  if n = 0 then 512 else n

/-- Shallow embedding of `calculateOptimalLayout` (`src/genFont.ts`).
The single-page branch returns the page size (with the `|| 512` default);
the multi-page branch assumes a constant 256x256 page size and lays pages
out left to right with a `PADDING` gutter. -/
def calculateOptimalLayout (textures : List Dim) : TextureLayout :=
  if textures.length = 1 then
    let t := textures.headD ⟨0, 0⟩
    { width := (orDefault t.width : Int)
      height := (orDefault t.height : Int)
      positions := [⟨0, 0, (orDefault t.width : Int), (orDefault t.height : Int)⟩] }
  else
    let textureWidth : Nat := 256
    let textureHeight : Nat := 256
    { width := (textures.length : Int) * textureWidth + ((textures.length : Int) - 1) * PADDING
      height := (textureHeight : Int)
      positions := textures.enum.map fun p =>
        ⟨(p.1 : Int) * (textureWidth + PADDING), 0, (textureWidth : Int), (textureHeight : Int)⟩ }

/-- One glyph record of the metadata document (an element of
`fontData.chars`).  Fields not touched by the subsystem are carried so
that "leaves the other fields unchanged" is expressible. -/
structure FontChar where
  id : Int
  x : Int
  y : Int
  width : Int
  height : Int
  xoffset : Int
  yoffset : Int
  xadvance : Int
  page : Nat
deriving DecidableEq

/-- The `common` block of the metadata document. -/
structure FontCommon where
  base : Int
  scaleW : Int
  scaleH : Int
  pages : Nat
deriving DecidableEq

/-- The `distanceField` block of the metadata document. -/
structure DistanceFieldInfo where
  distanceRange : Nat
deriving DecidableEq

/-- The typographic metrics read from font introspection
(`opentype` OS/2 table). -/
structure FontMetrics where
  ascender : Int
  descender : Int
  lineGap : Int
  unitsPerEm : Int
deriving DecidableEq

/-- The metadata document (the parsed font JSON), restricted to the
fields the atlas-composition subsystem reads or writes; the object
spreads `{...fontData}` / `{...char}` of the source preserve all other
fields untouched. -/
structure FontData where
  chars : List FontChar
  common : FontCommon
  pages : List String
  distanceField : DistanceFieldInfo
  lightningMetrics : Option FontMetrics
deriving DecidableEq

/-- The per-glyph step of `updateCharacterCoordinates`: look up the
placement of the glyph's original page (`layout.positions[char.page]`);
without a placement return the glyph with page forced to 0, otherwise
translate by the placement offset and set page 0. -/
def remapChar (layout : TextureLayout) (c : FontChar) : FontChar :=
  match layout.positions[c.page]? with
  | none => { c with page := 0 }
  | some p => { c with x := c.x + p.x, y := c.y + p.y, page := 0 }

/-- Shallow embedding of `updateCharacterCoordinates` (`src/genFont.ts`):
remap every glyph and set `common.scaleW/scaleH` to the layout
dimensions. -/
def updateCharacterCoordinates (fontData : FontData) (layout : TextureLayout) : FontData :=
  { fontData with
    chars := fontData.chars.map (remapChar layout)
    common := { fontData.common with scaleW := layout.width, scaleH := layout.height } }

/-- The `console.warn` message emitted by `updateCharacterCoordinates`
for a glyph whose page has no placement. -/
def noPositionWarning (page : Nat) : String :=
  "No position found for page " ++ toString page ++ ", using original coordinates"

/-- The warning-level signals emitted by a run of
`updateCharacterCoordinates`: one `console.warn` per glyph whose page
index has no placement in the layout. -/
def updateCharacterWarnings (fontData : FontData) (layout : TextureLayout) : List String :=
  (fontData.chars.filter fun c => layout.positions[c.page]?.isNone).map
    fun c => noPositionWarning c.page

/-- The metadata transformation performed by `stitchTextures`
(`src/genFont.ts`), with the image compositing and file I/O stripped:
compute the layout from the loaded page dimensions, remap the glyph
coordinates, then set the page list to the single stitched file name and
`common.pages` to 1. -/
def stitchTexturesData (fontData : FontData) (images : List Dim)
    (fontName fieldType : String) : FontData :=
  let layout := calculateOptimalLayout images
  let u := updateCharacterCoordinates fontData layout
  { u with
    pages := [fontName ++ "." ++ fieldType ++ ".png"]
    common := { u.common with pages := 1 } }

/-- The metadata transformation performed by `adjustSingleFont`
(`adjustFont.ts`), with file I/O and font loading stripped: the metrics
read from introspection of the font file enter as the `metrics`
parameter.  Computes `pad = distanceRange >> 1`, subtracts `pad` from
`common.base`, subtracts `pad` twice from every glyph's `yoffset`, and
attaches the metrics as `lightningMetrics`. -/
def adjustSingleFontData (json : FontData) (metrics : FontMetrics) : FontData :=
  let pad : Nat := json.distanceField.distanceRange / 2
  { json with
    common := { json.common with base := json.common.base - pad }
    chars := json.chars.map fun c => { c with yoffset := c.yoffset - pad - pad }
    lightningMetrics := some metrics }

/-- The bias-correction part of `adjustFontFamily` (`adjustFont.ts`), file
I/O stripped.  JavaScript truthiness is embedded as `≠ 0`: the distance
range falls back to 4 if the document's value is falsy, and the baseline
is adjusted only `if (json.common && json.common.base)`. -/
def adjustFontFamilyData (json : FontData) (metrics : FontMetrics) : FontData :=
  let distanceField : Nat :=
    if json.distanceField.distanceRange ≠ 0 then json.distanceField.distanceRange else 4
  let pad : Nat := distanceField / 2
  { json with
    common :=
      { json.common with
        base := if json.common.base ≠ 0 then json.common.base - pad else json.common.base }
    chars := json.chars.map fun c => { c with yoffset := c.yoffset - pad - pad }
    lightningMetrics := some metrics }

/-- Lowercasing used to model JavaScript `toLowerCase()` on the ASCII
style labels involved: per-character `Char.toLower` on the string's
character list. -/
def lowerData (s : String) : List Char :=
  s.data.map Char.toLower

/-- Three-way lexicographic comparison of character lists, the primitive
used to model JavaScript string comparison. -/
def strLex : List Char → List Char → Int
  | [], [] => 0
  | [], _ :: _ => -1
  | _ :: _, [] => 1
  | a :: s, b :: t => if a < b then -1 else if b < a then 1 else strLex s t

/-- Models JavaScript `String.prototype.localeCompare` under the default
locale for the ASCII style labels this program compares: primary
case-insensitive alphabetical comparison, with a code-point comparison as
tie-break. -/
def localeCompare (s t : String) : Int :=
  let c := strLex (lowerData s) (lowerData t)
  if c = 0 then strLex s.data t.data else c

/-- One entry of the per-family font list built by `genFontsByFamily`
(`{ path, style, fileName }`). -/
structure FontEntry where
  path : String
  style : String
  fileName : String
deriving DecidableEq

/-- The sort comparator of `genFontsByFamily`: Regular (case-insensitive)
first, then `localeCompare` on the style labels. -/
def styleCompare (a b : FontEntry) : Int :=
  if lowerData a.style = "regular".data then -1
  else if lowerData b.style = "regular".data then 1
  else localeCompare a.style b.style

/-- The comparator restricted to its non-Regular branch: plain
`localeCompare` of the style labels. -/
def styleLocaleCompare (a b : FontEntry) : Int :=
  localeCompare a.style b.style

/-- Model of JavaScript `Array.prototype.sort` with a comparator: a
stable sort placing `a` before `b` whenever `cmp a b ≤ 0`.  For a
consistent comparator every ECMAScript-conforming (stable) sort produces
this list. -/
def jsSort (cmp : α → α → Int) (l : List α) : List α :=
  List.insertionSort (fun a b => cmp a b ≤ 0) l

/-- One entry of the `styles` index written into the family descriptor by
`generateFontFamily`. -/
structure StyleRange where
  style : String
  pageIndex : Nat
  pageCount : Nat
  pageRange : String
deriving DecidableEq

/-- The page-range string of a `styles` entry as built in
`generateFontFamily`: `start-end` when the style spans several pages,
`start` otherwise. -/
def pageRangeString (pageIndex pageCount : Nat) : String :=
  if pageCount > 1 then
    toString pageIndex ++ "-" ++ toString (pageIndex + pageCount - 1)
  else
    toString pageIndex

/-- The family page-numbering loop of `generateFontFamily`, abstracted
over the number of raster pages each style's rasterization produced
(`pages`): a style with two or more pages has that many paginated files
(`..._i.png`), a style with one page has the single `....png` file, a
style with zero pages has neither.  `startPageIndex` is the running
global page index; `stylePagesCount` is the paginated-file count or 1;
the global index advances once per file actually copied. -/
def assignFamilyPages (globalPageIndex : Nat) :
    List (String × Nat) → List StyleRange
  | [] => []
  | (style, pages) :: rest =>
    let stylePagesCount := if 2 ≤ pages then pages else 1
    { style := style
      pageIndex := globalPageIndex
      pageCount := stylePagesCount
      pageRange := pageRangeString globalPageIndex stylePagesCount }
      :: assignFamilyPages (globalPageIndex + pages) rest

/-- Contiguity of a `styles` index: the first entry starts at the given
page, and every following entry starts where the previous one ended. -/
def contiguousFrom : Nat → List StyleRange → Prop
  | _, [] => True
  | g, r :: rest => r.pageIndex = g ∧ contiguousFrom (g + r.pageCount) rest

instance : ∀ g l, Decidable (contiguousFrom g l)
  | _, [] => .isTrue trivial
  | g, r :: rest =>
    have : Decidable (contiguousFrom (g + r.pageCount) rest) := instDecidableContiguousFrom _ _
    instDecidableAnd

/-- The four-field metrics equality test of `adjustFontFamily`
(`item.metrics.ascender === firstMetrics?.ascender && ...`). -/
def metricsEq (a b : FontMetrics) : Bool :=
  a.ascender = b.ascender && a.descender = b.descender &&
    a.lineGap = b.lineGap && a.unitsPerEm = b.unitsPerEm

/-- The metrics files written by `adjustFontFamily`, as a list of
(file name, contents) pairs; `styleMetrics` pairs each style label with
the metrics introspected from that style's font file.  With no styles the
function returns early and writes nothing; with identical metrics across
the styles one shared family file is written; otherwise one file per
style, named by family and style. -/
def familyMetricsWrites (fontFamily : String)
    (styleMetrics : List (String × FontMetrics)) : List (String × FontMetrics) :=
  match styleMetrics with
  | [] => []
  | first :: _ =>
    if styleMetrics.all fun item => metricsEq item.2 first.2 then
      [(fontFamily ++ ".metrics.json", first.2)]
    else
      styleMetrics.map fun item =>
        (fontFamily ++ "-" ++ item.1 ++ ".metrics.json", item.2)

/-- The metrics embedded into the shared family document by
`adjustFontFamily`: those of the first (reference) style, `none` when the
family has no styles (early return). -/
def familyEmbeddedMetrics (styleMetrics : List (String × FontMetrics)) :
    Option FontMetrics :=
  styleMetrics.head?.map (·.2)

/-! ## Layout planner lemmas -/

theorem layout_multi_width (textures : List Dim) (h : textures.length ≠ 1) :
    (calculateOptimalLayout textures).width
      = (textures.length : Int) * 256 + ((textures.length : Int) - 1) * 2 := by
  simp [calculateOptimalLayout, h, PADDING]

theorem layout_multi_height (textures : List Dim) (h : textures.length ≠ 1) :
    (calculateOptimalLayout textures).height = 256 := by
  simp [calculateOptimalLayout, h]

theorem layout_multi_positions (textures : List Dim) (h : textures.length ≠ 1) :
    (calculateOptimalLayout textures).positions
      = (List.range textures.length).map fun (i : Nat) =>
          (⟨(i : Int) * 258, 0, 256, 256⟩ : PagePosition) := by
  simp only [calculateOptimalLayout, if_neg h]
  rw [show (fun (p : Nat × Dim) =>
        (⟨(p.1 : Int) * ((256 : Nat) + (PADDING : Nat) : Int), 0, ((256 : Nat) : Int),
          ((256 : Nat) : Int)⟩ : PagePosition))
      = (fun (i : Nat) => (⟨(i : Int) * 258, 0, 256, 256⟩ : PagePosition)) ∘ Prod.fst by
    funext p
    simp [PADDING]]
  rw [← List.map_map, List.enum_map_fst]

theorem layout_multi_positions_getElem (textures : List Dim) (h : textures.length ≠ 1)
    (i : Nat) (hi : i < textures.length) :
    (calculateOptimalLayout textures).positions[i]?
      = some ⟨(i : Int) * 258, 0, 256, 256⟩ := by
  rw [layout_multi_positions textures h, List.getElem?_map, List.getElem?_range hi]
  rfl

theorem layout_multi_positions_length (textures : List Dim) (h : textures.length ≠ 1) :
    (calculateOptimalLayout textures).positions.length = textures.length := by
  rw [layout_multi_positions textures h, List.length_map, List.length_range]

theorem sum_widths_const (textures : List Dim) (h : ∀ d ∈ textures, d = ⟨256, 256⟩) :
    (textures.map Dim.width).sum = 256 * textures.length := by
  induction textures with
  | nil => simp
  | cons a t ih =>
    have ha := h a (List.mem_cons_self a t)
    have ht := ih fun d hd => h d (List.mem_cons_of_mem a hd)
    simp [ha, ht, Nat.mul_succ]
    omega

/-- C1.  The claim's canvas formulas (sum of page widths, page height)
do not hold for the code on general equal-height inputs: the planner
assumes constant 256x256 pages.  Amended claim, proved here: for every
multi-page input the canvas height is 256 and the canvas width is
`n*256 + (n-1)*2` — which coincide with the page height and the sum of
page widths plus `(n-1)` gutters exactly when every page is 256x256 —
and the placements are one per page, non-overlapping, ordered left to
right, each within the canvas bounds. -/
theorem c1_multi_page_layout (textures : List Dim) (h2 : 2 ≤ textures.length) :
    (calculateOptimalLayout textures).height = 256 ∧
    (calculateOptimalLayout textures).width
      = (textures.length : Int) * 256 + ((textures.length : Int) - 1) * 2 ∧
    ((∀ d ∈ textures, d = ⟨256, 256⟩) →
      (calculateOptimalLayout textures).height = ((textures.headD ⟨0, 0⟩).height : Int) ∧
      (calculateOptimalLayout textures).width
        = ((textures.map Dim.width).sum : Int) + ((textures.length : Int) - 1) * 2) ∧
    (calculateOptimalLayout textures).positions.length = textures.length ∧
    (∀ (i j : Nat) (pi pj : PagePosition),
      (calculateOptimalLayout textures).positions[i]? = some pi →
      (calculateOptimalLayout textures).positions[j]? = some pj → i < j →
      pi.x + pi.width ≤ pj.x) ∧
    (∀ (i : Nat) (p : PagePosition), (calculateOptimalLayout textures).positions[i]? = some p →
      0 ≤ p.x ∧ 0 ≤ p.y ∧ p.x + p.width ≤ (calculateOptimalLayout textures).width ∧
        p.y + p.height ≤ (calculateOptimalLayout textures).height) := by
  have h1 : textures.length ≠ 1 := by omega
  have hget : ∀ (i : Nat) (p : PagePosition),
      (calculateOptimalLayout textures).positions[i]? = some p →
      i < textures.length ∧ p = ⟨(i : Int) * 258, 0, 256, 256⟩ := by
    intro i p hp
    have hi : i < textures.length := by
      by_contra hi
      rw [layout_multi_positions textures h1] at hp
      rw [List.getElem?_eq_none] at hp
      · simp at hp
      · simpa using Nat.le_of_not_lt hi
    rw [layout_multi_positions_getElem textures h1 i hi] at hp
    exact ⟨hi, (Option.some_inj.mp hp).symm⟩
  refine ⟨layout_multi_height textures h1, layout_multi_width textures h1, ?_, ?_, ?_, ?_⟩
  · intro hu
    have hh : (textures.headD ⟨0, 0⟩).height = 256 := by
      cases textures with
      | nil => simp at h2
      | cons a t => simp [hu a (List.mem_cons_self a t)]
    have hw := sum_widths_const textures hu
    rw [layout_multi_height textures h1, layout_multi_width textures h1, hh, hw]
    push_cast
    constructor <;> ring_nf
  · exact layout_multi_positions_length textures h1
  · intro i j pi pj hpi hpj hij
    obtain ⟨hi, rfl⟩ := hget i pi hpi
    obtain ⟨hj, rfl⟩ := hget j pj hpj
    simp only
    omega
  · intro i p hp
    obtain ⟨hi, rfl⟩ := hget i p hp
    rw [layout_multi_width textures h1, layout_multi_height textures h1]
    simp only
    omega

/-- C1 witness: the amended theorem applied to two 256x256 pages. -/
theorem c1_multi_page_layout_witness :
    (calculateOptimalLayout [⟨256, 256⟩, ⟨256, 256⟩]).height = 256 ∧
    (calculateOptimalLayout [⟨256, 256⟩, ⟨256, 256⟩]).width = 514 := by
  have h := c1_multi_page_layout [⟨256, 256⟩, ⟨256, 256⟩] (by decide)
  refine ⟨h.1, ?_⟩
  rw [h.2.1]
  norm_num

/-- C1 counterexample: on two 512x512 pages (equal heights) the planner
returns canvas 514x256, not the claimed `sum of widths + gutter = 1026`
wide and `page height = 512` tall canvas. -/
theorem c1_counterexample :
    (calculateOptimalLayout [⟨512, 512⟩, ⟨512, 512⟩]).width = 514 ∧
    (calculateOptimalLayout [⟨512, 512⟩, ⟨512, 512⟩]).height = 256 ∧
    ¬ ((calculateOptimalLayout [⟨512, 512⟩, ⟨512, 512⟩]).width = 512 + 512 + 2 ∧
       (calculateOptimalLayout [⟨512, 512⟩, ⟨512, 512⟩]).height = 512) := by
  decide

/-- C2.  As stated the claim fails (the planner ignores the true page
dimensions); amended claim, proved here: for every page sequence whose
pages are all 256x256 and every glyph on a valid page whose rectangle
lies within its 256x256 page, the remapped glyph lies within the merged
canvas bounds and its page index is 0. -/
theorem c2_remap_within_canvas (images : List Dim) (c : FontChar)
    (huniform : ∀ d ∈ images, d = ⟨256, 256⟩)
    (hpage : c.page < images.length)
    (hx0 : 0 ≤ c.x) (hy0 : 0 ≤ c.y)
    (hxw : c.x + c.width ≤ 256) (hyh : c.y + c.height ≤ 256) :
    (remapChar (calculateOptimalLayout images) c).page = 0 ∧
    0 ≤ (remapChar (calculateOptimalLayout images) c).x ∧
    0 ≤ (remapChar (calculateOptimalLayout images) c).y ∧
    (remapChar (calculateOptimalLayout images) c).x
        + (remapChar (calculateOptimalLayout images) c).width
      ≤ (calculateOptimalLayout images).width ∧
    (remapChar (calculateOptimalLayout images) c).y
        + (remapChar (calculateOptimalLayout images) c).height
      ≤ (calculateOptimalLayout images).height := by
  by_cases h1 : images.length = 1
  · have hpage0 : c.page = 0 := by omega
    obtain ⟨d, rfl⟩ : ∃ d, images = [d] := by
      cases images with
      | nil => simp at h1
      | cons a t =>
        cases t with
        | nil => exact ⟨a, rfl⟩
        | cons b t' => simp at h1
    have hd := huniform d (List.mem_cons_self d [])
    subst hd
    simp [calculateOptimalLayout, orDefault, remapChar, hpage0]
    omega
  · have hsome := layout_multi_positions_getElem images h1 c.page hpage
    have hw := layout_multi_width images h1
    have hh := layout_multi_height images h1
    refine ⟨?_, ?_, ?_, ?_, ?_⟩ <;> simp only [remapChar, hsome, hw, hh] <;> omega

/-- C2 witness: the amended theorem applied to a glyph on page 1 of two
256x256 pages. -/
theorem c2_remap_within_canvas_witness :
    (remapChar (calculateOptimalLayout [⟨256, 256⟩, ⟨256, 256⟩])
        ⟨65, 10, 10, 20, 20, 0, 0, 21, 1⟩).page = 0 ∧
    (remapChar (calculateOptimalLayout [⟨256, 256⟩, ⟨256, 256⟩])
          ⟨65, 10, 10, 20, 20, 0, 0, 21, 1⟩).x + 20
      ≤ (calculateOptimalLayout [⟨256, 256⟩, ⟨256, 256⟩]).width := by
  have h := c2_remap_within_canvas [⟨256, 256⟩, ⟨256, 256⟩]
    ⟨65, 10, 10, 20, 20, 0, 0, 21, 1⟩ (by decide) (by decide) (by decide) (by decide)
    (by decide) (by decide)
  exact ⟨h.1, h.2.2.2.1⟩

/-- C2 counterexample: two 512x512 pages with a glyph on page 0 whose
rectangle lies within its 512x512 page, but whose remapped rectangle
exceeds the merged canvas height of 256. -/
theorem c2_counterexample :
    (0 ≤ (⟨65, 0, 300, 10, 100, 0, 0, 21, 0⟩ : FontChar).x ∧
      (⟨65, 0, 300, 10, 100, 0, 0, 21, 0⟩ : FontChar).x
          + (⟨65, 0, 300, 10, 100, 0, 0, 21, 0⟩ : FontChar).width ≤ 512 ∧
      0 ≤ (⟨65, 0, 300, 10, 100, 0, 0, 21, 0⟩ : FontChar).y ∧
      (⟨65, 0, 300, 10, 100, 0, 0, 21, 0⟩ : FontChar).y
          + (⟨65, 0, 300, 10, 100, 0, 0, 21, 0⟩ : FontChar).height ≤ 512) ∧
    (⟨65, 0, 300, 10, 100, 0, 0, 21, 0⟩ : FontChar).page < 2 ∧
    ¬ ((remapChar (calculateOptimalLayout [⟨512, 512⟩, ⟨512, 512⟩])
          ⟨65, 0, 300, 10, 100, 0, 0, 21, 0⟩).y
        + (remapChar (calculateOptimalLayout [⟨512, 512⟩, ⟨512, 512⟩])
          ⟨65, 0, 300, 10, 100, 0, 0, 21, 0⟩).height
      ≤ (calculateOptimalLayout [⟨512, 512⟩, ⟨512, 512⟩]).height) := by
  decide

/-- C3.  For a glyph whose page has a placement, the remapper adds the
placement offset to x and y, sets page 0 and leaves every other field
unchanged; the stitched document has page count 1, the plan's canvas
dimensions, and a single page file name; and the two-page 256x256
scenario maps a page-1 glyph at (10,10) to page 0 at (268,10). -/
theorem c3_remap_arithmetic (L : TextureLayout) (c : FontChar) (p : PagePosition)
    (hp : L.positions[c.page]? = some p)
    (d : FontData) (images : List Dim) (fontName fieldType : String) :
    remapChar L c = { c with x := c.x + p.x, y := c.y + p.y, page := 0 } ∧
    (stitchTexturesData d images fontName fieldType).common.pages = 1 ∧
    (stitchTexturesData d images fontName fieldType).common.scaleW
      = (calculateOptimalLayout images).width ∧
    (stitchTexturesData d images fontName fieldType).common.scaleH
      = (calculateOptimalLayout images).height ∧
    (stitchTexturesData d images fontName fieldType).pages
      = [fontName ++ "." ++ fieldType ++ ".png"] ∧
    (stitchTexturesData d images fontName fieldType).chars
      = d.chars.map (remapChar (calculateOptimalLayout images)) ∧
    remapChar (calculateOptimalLayout [⟨256, 256⟩, ⟨256, 256⟩])
        ⟨65, 10, 10, 20, 20, 4, 4, 21, 1⟩
      = ⟨65, 268, 10, 20, 20, 4, 4, 21, 0⟩ := by
  refine ⟨?_, ?_, ?_, ?_, ?_, ?_, by decide⟩
  · simp [remapChar, hp]
  all_goals simp [stitchTexturesData, updateCharacterCoordinates]

/-- C3 witness: the theorem applied to the two-page 256x256 scenario. -/
theorem c3_remap_arithmetic_witness :
    remapChar (calculateOptimalLayout [⟨256, 256⟩, ⟨256, 256⟩])
        ⟨65, 10, 10, 20, 20, 4, 4, 21, 1⟩
      = ⟨65, 268, 10, 20, 20, 4, 4, 21, 0⟩ :=
  (c3_remap_arithmetic (calculateOptimalLayout [⟨256, 256⟩, ⟨256, 256⟩])
    ⟨65, 10, 10, 20, 20, 4, 4, 21, 1⟩ ⟨258, 0, 256, 256⟩ (by decide)
    ⟨[], ⟨0, 0, 0, 0⟩, [], ⟨4⟩, none⟩ [] "f" "msdf").2.2.2.2.2.2

/-- C4.  As stated the claim fails on a page with a zero dimension
(JavaScript `|| 512` replaces it by 512); amended claim, proved here:
for every single-page input with nonzero width and height the planner
returns the identity plan, and remapping with the single-page plan
leaves every glyph's x and y unchanged. -/
theorem c4_single_page_identity (t : Dim) (hw : t.width ≠ 0) (hh : t.height ≠ 0) :
    calculateOptimalLayout [t]
      = { width := (t.width : Int), height := (t.height : Int),
          positions := [⟨0, 0, (t.width : Int), (t.height : Int)⟩] } ∧
    ∀ c : FontChar, (remapChar (calculateOptimalLayout [t]) c).x = c.x ∧
      (remapChar (calculateOptimalLayout [t]) c).y = c.y := by
  have hL : calculateOptimalLayout [t]
      = { width := (t.width : Int), height := (t.height : Int),
          positions := [⟨0, 0, (t.width : Int), (t.height : Int)⟩] } := by
    simp [calculateOptimalLayout, orDefault, hw, hh]
  refine ⟨hL, fun c => ?_⟩
  rw [hL]
  cases hcp : c.page with
  | zero => simp [remapChar, hcp]
  | succ n => simp [remapChar, hcp]

/-- C4 witness: the amended theorem applied to one 512x512 page and one
glyph. -/
theorem c4_single_page_identity_witness :
    calculateOptimalLayout [⟨512, 512⟩]
      = { width := 512, height := 512, positions := [⟨0, 0, 512, 512⟩] } ∧
    (remapChar (calculateOptimalLayout [⟨512, 512⟩])
      ⟨65, 10, 10, 20, 20, 0, 0, 21, 0⟩).x = 10 := by
  have h := c4_single_page_identity ⟨512, 512⟩ (by decide) (by decide)
  exact ⟨h.1, (h.2 ⟨65, 10, 10, 20, 20, 0, 0, 21, 0⟩).1⟩

/-- C4 counterexample: a single page of width 0 yields canvas width 512,
not the page's width. -/
theorem c4_counterexample :
    (calculateOptimalLayout [⟨0, 256⟩]).width = 512 ∧
    (calculateOptimalLayout [⟨0, 256⟩]).width ≠ (((⟨0, 256⟩ : Dim).width : Nat) : Int) := by
  decide

/-- C5.  A glyph whose page index has no placement is returned with page
forced to 0 and all other fields (including x and y) unchanged, a
warning is emitted for it, and every other glyph of the document is
still remapped normally. -/
theorem c5_missing_placement (d : FontData) (L : TextureLayout) (i : Nat) (c : FontChar)
    (hc : d.chars[i]? = some c) (hnone : L.positions[c.page]? = none) :
    (updateCharacterCoordinates d L).chars[i]? = some { c with page := 0 } ∧
    noPositionWarning c.page ∈ updateCharacterWarnings d L ∧
    (∀ (j : Nat) (c' : FontChar), d.chars[j]? = some c' →
      (updateCharacterCoordinates d L).chars[j]? = some (remapChar L c')) := by
  refine ⟨?_, ?_, ?_⟩
  · simp [updateCharacterCoordinates, List.getElem?_map, hc, remapChar, hnone]
  · have hmem : c ∈ d.chars := by
      obtain ⟨hlt, rfl⟩ := List.getElem?_eq_some.mp hc
      exact List.getElem_mem hlt
    have hfil : c ∈ d.chars.filter fun x => L.positions[x.page]?.isNone :=
      List.mem_filter.mpr ⟨hmem, by simp [hnone]⟩
    exact List.mem_map_of_mem _ hfil
  · intro j c' hc'
    simp [updateCharacterCoordinates, List.getElem?_map, hc']

/-- C5 witness: a one-glyph document whose glyph sits on page 5 of a
two-placement plan. -/
theorem c5_missing_placement_witness :
    (updateCharacterCoordinates
        ⟨[⟨65, 10, 10, 20, 20, 0, 0, 21, 5⟩], ⟨40, 256, 256, 2⟩, ["a.png", "b.png"], ⟨4⟩, none⟩
        (calculateOptimalLayout [⟨256, 256⟩, ⟨256, 256⟩])).chars[0]?
      = some ⟨65, 10, 10, 20, 20, 0, 0, 21, 0⟩ ∧
    noPositionWarning 5 ∈ updateCharacterWarnings
        ⟨[⟨65, 10, 10, 20, 20, 0, 0, 21, 5⟩], ⟨40, 256, 256, 2⟩, ["a.png", "b.png"], ⟨4⟩, none⟩
        (calculateOptimalLayout [⟨256, 256⟩, ⟨256, 256⟩]) := by
  have h := c5_missing_placement
    ⟨[⟨65, 10, 10, 20, 20, 0, 0, 21, 5⟩], ⟨40, 256, 256, 2⟩, ["a.png", "b.png"], ⟨4⟩, none⟩
    (calculateOptimalLayout [⟨256, 256⟩, ⟨256, 256⟩]) 0
    ⟨65, 10, 10, 20, 20, 0, 0, 21, 5⟩ (by decide) (by decide)
  exact ⟨h.1, h.2.1⟩

/-! ## Metrics adjuster -/

/-- C6.  The bias correction computes `pad = distanceRange >> 1`,
subtracts `pad` once from `common.base` and `2*pad` from every glyph's
`yoffset`, changing no other glyph field; the family variant does the
same on documents whose baseline and distance range are nonzero
(truthy); and with distanceRange 4 it maps base 40 to 38 and a glyph
yoffset 10 to 6. -/
theorem c6_bias_correction (json : FontData) (m : FontMetrics) :
    (adjustSingleFontData json m).common.base
      = json.common.base - ((json.distanceField.distanceRange / 2 : Nat) : Int) ∧
    (adjustSingleFontData json m).chars
      = json.chars.map (fun c =>
          { c with yoffset :=
              c.yoffset - 2 * ((json.distanceField.distanceRange / 2 : Nat) : Int) }) ∧
    (json.common.base ≠ 0 → json.distanceField.distanceRange ≠ 0 →
      (adjustFontFamilyData json m).common.base
        = json.common.base - ((json.distanceField.distanceRange / 2 : Nat) : Int) ∧
      (adjustFontFamilyData json m).chars
        = json.chars.map (fun c =>
            { c with yoffset :=
                c.yoffset - 2 * ((json.distanceField.distanceRange / 2 : Nat) : Int) })) ∧
    (adjustSingleFontData
        ⟨[⟨65, 1, 2, 3, 4, 5, 10, 7, 0⟩], ⟨40, 512, 512, 1⟩, ["f.png"], ⟨4⟩, none⟩
        m).common.base = 38 ∧
    (adjustSingleFontData
        ⟨[⟨65, 1, 2, 3, 4, 5, 10, 7, 0⟩], ⟨40, 512, 512, 1⟩, ["f.png"], ⟨4⟩, none⟩
        m).chars = [⟨65, 1, 2, 3, 4, 5, 6, 7, 0⟩] := by
  have hfun : ∀ c : FontChar,
      ({ c with yoffset :=
          c.yoffset - ((json.distanceField.distanceRange / 2 : Nat) : Int)
            - ((json.distanceField.distanceRange / 2 : Nat) : Int) } : FontChar)
        = { c with yoffset :=
            c.yoffset - 2 * ((json.distanceField.distanceRange / 2 : Nat) : Int) } := by
    intro c
    congr 1
    omega
  refine ⟨?_, ?_, ?_, ?_, ?_⟩
  · simp [adjustSingleFontData]
  · simp only [adjustSingleFontData]
    exact List.map_congr_left fun c _ => hfun c
  · intro hb hd
    constructor
    · simp [adjustFontFamilyData, hb, hd]
    · simp only [adjustFontFamilyData, if_pos hd]
      exact List.map_congr_left fun c _ => hfun c
  · simp [adjustSingleFontData]
  · simp [adjustSingleFontData]

/-- C6 witness: the family-path conjunct applied to a concrete document
with base 40 and distance range 4. -/
theorem c6_bias_correction_witness :
    (adjustFontFamilyData
        ⟨[⟨65, 1, 2, 3, 4, 5, 10, 7, 0⟩], ⟨40, 512, 512, 1⟩, ["f.png"], ⟨4⟩, none⟩
        ⟨1900, -500, 100, 2048⟩).common.base = 38 := by
  have h := (c6_bias_correction
    ⟨[⟨65, 1, 2, 3, 4, 5, 10, 7, 0⟩], ⟨40, 512, 512, 1⟩, ["f.png"], ⟨4⟩, none⟩
    ⟨1900, -500, 100, 2048⟩).2.2.1 (by decide) (by decide)
  rw [h.1]
  norm_num

/-- C7.  The correction has no guard against re-application: amended to
documents whose distance range is at least 2 (`pad > 0`), applying it
twice yields a different document than applying it once. -/
theorem c7_reapplication_changes (json : FontData) (m : FontMetrics)
    (h2 : 2 ≤ json.distanceField.distanceRange) :
    adjustSingleFontData (adjustSingleFontData json m) m ≠ adjustSingleFontData json m := by
  intro heq
  have hb := congrArg (fun d => d.common.base) heq
  simp only [adjustSingleFontData] at hb
  omega

/-- C7 witness: re-applying to a document with distance range 4 changes
it. -/
theorem c7_reapplication_changes_witness :
    adjustSingleFontData
        (adjustSingleFontData ⟨[], ⟨40, 512, 512, 1⟩, ["f.png"], ⟨4⟩, none⟩
          ⟨1900, -500, 100, 2048⟩) ⟨1900, -500, 100, 2048⟩
      ≠ adjustSingleFontData ⟨[], ⟨40, 512, 512, 1⟩, ["f.png"], ⟨4⟩, none⟩
          ⟨1900, -500, 100, 2048⟩ :=
  c7_reapplication_changes _ _ (by decide)

/-- C7 counterexample: on a document with distance range 1 the pad is 0
and applying the correction twice equals applying it once, so the claim
does not hold of every metadata document. -/
theorem c7_counterexample :
    adjustSingleFontData
        (adjustSingleFontData ⟨[⟨65, 1, 2, 3, 4, 5, 10, 7, 0⟩], ⟨40, 512, 512, 1⟩,
          ["f.png"], ⟨1⟩, none⟩ ⟨1900, -500, 100, 2048⟩) ⟨1900, -500, 100, 2048⟩
      = adjustSingleFontData ⟨[⟨65, 1, 2, 3, 4, 5, 10, 7, 0⟩], ⟨40, 512, 512, 1⟩,
          ["f.png"], ⟨1⟩, none⟩ ⟨1900, -500, 100, 2048⟩ := by
  decide

/-! ## Family aggregation -/

theorem assignFamilyPages_contiguous (g : Nat) (styles : List (String × Nat))
    (h : ∀ s ∈ styles, 1 ≤ s.2) :
    contiguousFrom g (assignFamilyPages g styles) := by
  induction styles generalizing g with
  | nil => trivial
  | cons a rest ih =>
    obtain ⟨name, n⟩ := a
    have ha : 1 ≤ n := h (name, n) (List.mem_cons_self _ _)
    have hrest := fun s hs => h s (List.mem_cons_of_mem (name, n) hs)
    simp only [assignFamilyPages, contiguousFrom]
    have hcount : (if 2 ≤ n then n else 1) = n := by
      split <;> omega
    rw [hcount]
    exact ⟨trivial, ih (g + n) hrest⟩

theorem assignFamilyPages_pageRange (g : Nat) (styles : List (String × Nat)) :
    ∀ r ∈ assignFamilyPages g styles, 1 ≤ r.pageCount ∧
      r.pageRange = (if 1 < r.pageCount then
          toString r.pageIndex ++ "-" ++ toString (r.pageIndex + r.pageCount - 1)
        else toString r.pageIndex) := by
  induction styles generalizing g with
  | nil => intro r hr; simp [assignFamilyPages] at hr
  | cons a rest ih =>
    obtain ⟨name, n⟩ := a
    intro r hr
    simp only [assignFamilyPages, List.mem_cons] at hr
    rcases hr with rfl | hr
    · constructor
      · simp only
        split <;> omega
      · simp [pageRangeString]
    · exact ih (g + n) r hr

/-- C9.  Amended: provided every style's rasterization produced at least
one page, the styles index is contiguous and non-overlapping — the
first style starts at page 0 and each later style starts where the
previous one ended — and each page-range string is `start` for a
one-page style and `start-end` otherwise. -/
theorem c9_style_ranges (styles : List (String × Nat)) (h : ∀ s ∈ styles, 1 ≤ s.2) :
    contiguousFrom 0 (assignFamilyPages 0 styles) ∧
    ∀ r ∈ assignFamilyPages 0 styles, 1 ≤ r.pageCount ∧
      r.pageRange = (if 1 < r.pageCount then
          toString r.pageIndex ++ "-" ++ toString (r.pageIndex + r.pageCount - 1)
        else toString r.pageIndex) :=
  ⟨assignFamilyPages_contiguous 0 styles h, assignFamilyPages_pageRange 0 styles⟩

/-- C9 witness: a two-page Regular style followed by a one-page Bold
style yields the contiguous index `[{0..1}, {2}]`. -/
theorem c9_style_ranges_witness :
    contiguousFrom 0 (assignFamilyPages 0 [("Regular", 2), ("Bold", 1)]) :=
  (c9_style_ranges [("Regular", 2), ("Bold", 1)] (by decide)).1

/-- C9 counterexample: a style whose rasterization produced zero pages
still gets `pageCount = 1` while the global index does not advance, so
the next style's range overlaps it and the index is not contiguous. -/
theorem c9_counterexample :
    ¬ contiguousFrom 0 (assignFamilyPages 0 [("A", 0), ("B", 1)]) := by
  decide

theorem metricsEq_iff (a b : FontMetrics) : metricsEq a b = true ↔ a = b := by
  cases a
  cases b
  simp [metricsEq, FontMetrics.mk.injEq]
  tauto

/-- C10.  For a nonempty style list: identical metrics across all styles
yield exactly the one shared family metrics file; a style differing from
the first yields exactly one file per style named by family and style;
and in both cases the first style's metrics are the ones embedded in the
shared document. -/
theorem c10_metrics_reconciliation (fontFamily : String) (first : String × FontMetrics)
    (rest : List (String × FontMetrics)) :
    ((∀ s ∈ first :: rest, s.2 = first.2) →
      familyMetricsWrites fontFamily (first :: rest)
        = [(fontFamily ++ ".metrics.json", first.2)]) ∧
    ((∃ s ∈ first :: rest, s.2 ≠ first.2) →
      familyMetricsWrites fontFamily (first :: rest)
        = (first :: rest).map fun item =>
            (fontFamily ++ "-" ++ item.1 ++ ".metrics.json", item.2)) ∧
    familyEmbeddedMetrics (first :: rest) = some first.2 := by
  refine ⟨?_, ?_, by simp [familyEmbeddedMetrics]⟩
  · intro hall
    have hc : (first :: rest).all (fun item => metricsEq item.2 first.2) = true := by
      rw [List.all_eq_true]
      intro s hs
      exact (metricsEq_iff _ _).mpr (hall s hs)
    simp [familyMetricsWrites, hc]
  · rintro ⟨s, hs, hne⟩
    have hc : ¬ ((first :: rest).all (fun item => metricsEq item.2 first.2) = true) := by
      rw [List.all_eq_true]
      intro hall
      exact hne ((metricsEq_iff _ _).mp (hall s hs))
    simp [familyMetricsWrites, hc]

/-- C10 witness: three identical-metrics styles yield the single shared
file; a divergent `unitsPerEm` yields three per-style files. -/
theorem c10_metrics_reconciliation_witness :
    familyMetricsWrites "Ubuntu"
        [("Regular", ⟨1900, -500, 100, 2048⟩), ("Bold", ⟨1900, -500, 100, 2048⟩),
          ("Italic", ⟨1900, -500, 100, 2048⟩)]
      = [("Ubuntu.metrics.json", ⟨1900, -500, 100, 2048⟩)] ∧
    familyMetricsWrites "Ubuntu"
        [("Regular", ⟨1900, -500, 100, 2048⟩), ("Bold", ⟨1900, -500, 100, 2048⟩),
          ("Italic", ⟨1900, -500, 100, 1000⟩)]
      = [("Ubuntu-Regular.metrics.json", ⟨1900, -500, 100, 2048⟩),
          ("Ubuntu-Bold.metrics.json", ⟨1900, -500, 100, 2048⟩),
          ("Ubuntu-Italic.metrics.json", ⟨1900, -500, 100, 1000⟩)] := by
  constructor
  · exact (c10_metrics_reconciliation "Ubuntu" _ _).1 (by decide)
  · have h := (c10_metrics_reconciliation "Ubuntu" ("Regular", ⟨1900, -500, 100, 2048⟩)
      [("Bold", ⟨1900, -500, 100, 2048⟩), ("Italic", ⟨1900, -500, 100, 1000⟩)]).2.1
      (by decide)
    simpa using h

/-! ## Style ordering (C8) -/

theorem strLex_nil_left_le (t : List Char) : strLex [] t ≤ 0 := by
  cases t <;> simp [strLex]

theorem strLex_eq_zero : ∀ {s t : List Char}, strLex s t = 0 ↔ s = t
  | [], [] => by simp [strLex]
  | [], _ :: _ => by simp [strLex]
  | _ :: _, [] => by simp [strLex]
  | a :: s, b :: t => by
    simp only [strLex]
    rcases lt_trichotomy a b with h | h | h
    · rw [if_pos h]
      constructor
      · intro h0
        exact absurd h0 (by norm_num)
      · rintro ⟨rfl, -⟩
        exact absurd h (lt_irrefl a)
    · subst h
      rw [if_neg (lt_irrefl a), if_neg (lt_irrefl a)]
      rw [strLex_eq_zero]
      simp
    · rw [if_neg (lt_asymm h), if_pos h]
      constructor
      · intro h0
        exact absurd h0 (by norm_num)
      · rintro ⟨rfl, -⟩
        exact absurd h (lt_irrefl a)

theorem strLex_swap : ∀ (s t : List Char), strLex t s = - strLex s t
  | [], [] => by simp [strLex]
  | [], _ :: _ => by simp [strLex]
  | _ :: _, [] => by simp [strLex]
  | a :: s, b :: t => by
    simp only [strLex]
    rcases lt_trichotomy a b with h | h | h
    · rw [if_pos h, if_neg (lt_asymm h), if_pos h]
      norm_num
    · subst h
      rw [if_neg (lt_irrefl a), if_neg (lt_irrefl a), if_neg (lt_irrefl a),
        if_neg (lt_irrefl a)]
      exact strLex_swap s t
    · rw [if_pos h, if_neg (lt_asymm h), if_pos h]

theorem strLex_trans : ∀ (s t u : List Char),
    strLex s t ≤ 0 → strLex t u ≤ 0 → strLex s u ≤ 0
  | [], _, u => fun _ _ => strLex_nil_left_le u
  | a :: s, [], u => by
    intro h1 _
    simp [strLex] at h1
  | a :: s, b :: t, [] => by
    intro _ h2
    simp [strLex] at h2
  | a :: s, b :: t, c :: u => by
    intro h1 h2
    simp only [strLex] at h1 h2 ⊢
    rcases lt_trichotomy a b with hab | hab | hab
    · rcases lt_trichotomy b c with hbc | hbc | hbc
      · rw [if_pos (lt_trans hab hbc)]
        norm_num
      · subst hbc
        rw [if_pos hab]
        norm_num
      · rw [if_neg (lt_asymm hbc), if_pos hbc] at h2
        exact absurd h2 (by norm_num)
    · subst hab
      rw [if_neg (lt_irrefl a), if_neg (lt_irrefl a)] at h1
      rcases lt_trichotomy a c with hac | hac | hac
      · rw [if_pos hac]
        norm_num
      · subst hac
        rw [if_neg (lt_irrefl a), if_neg (lt_irrefl a)] at h2 ⊢
        exact strLex_trans s t u h1 h2
      · rw [if_neg (lt_asymm hac), if_pos hac] at h2
        exact absurd h2 (by norm_num)
    · rw [if_neg (lt_asymm hab), if_pos hab] at h1
      exact absurd h1 (by norm_num)

theorem localeCompare_total (s t : String) :
    localeCompare s t ≤ 0 ∨ localeCompare t s ≤ 0 := by
  simp only [localeCompare]
  have hswap := strLex_swap (lowerData s) (lowerData t)
  have hswap2 := strLex_swap s.data t.data
  rcases lt_trichotomy (strLex (lowerData s) (lowerData t)) 0 with h | h | h
  · left
    rw [if_neg (by omega)]
    omega
  · have h' : strLex (lowerData t) (lowerData s) = 0 := by omega
    rw [if_pos h, if_pos h']
    rcases le_or_lt (strLex s.data t.data) 0 with h2 | h2
    · exact Or.inl h2
    · right
      omega
  · right
    rw [if_neg (by omega)]
    omega

theorem localeCompare_trans {s t u : String} (h1 : localeCompare s t ≤ 0)
    (h2 : localeCompare t u ≤ 0) : localeCompare s u ≤ 0 := by
  simp only [localeCompare] at h1 h2 ⊢
  by_cases e1 : strLex (lowerData s) (lowerData t) = 0
  · have hst : lowerData s = lowerData t := strLex_eq_zero.mp e1
    rw [if_pos e1] at h1
    by_cases e2 : strLex (lowerData t) (lowerData u) = 0
    · rw [if_pos e2] at h2
      rw [if_pos (by rw [hst]; exact e2)]
      exact strLex_trans _ _ _ h1 h2
    · rw [if_neg e2] at h2
      rw [if_neg (by rw [hst]; exact e2), hst]
      exact h2
  · rw [if_neg e1] at h1
    by_cases e2 : strLex (lowerData t) (lowerData u) = 0
    · have htu : lowerData t = lowerData u := strLex_eq_zero.mp e2
      rw [if_neg (by rw [← htu]; exact e1), ← htu]
      exact h1
    · rw [if_neg e2] at h2
      have h3 := strLex_trans _ _ _ h1 h2
      by_cases e3 : strLex (lowerData s) (lowerData u) = 0
      · have hsu : lowerData s = lowerData u := strLex_eq_zero.mp e3
        rw [← hsu] at h2
        rw [strLex_swap (lowerData s) (lowerData t)] at h2
        omega
      · rw [if_neg e3]
        exact h3

theorem orderedInsert_regular_head (r : FontEntry)
    (hr : lowerData r.style = "regular".data) (s : List FontEntry) :
    List.orderedInsert (fun x y => styleCompare x y ≤ 0) r s = r :: s := by
  cases s with
  | nil => rfl
  | cons b t =>
    have hc : styleCompare r b ≤ 0 := by
      simp only [styleCompare, if_pos hr]
      decide
    simp only [List.orderedInsert]
    rw [if_pos hc]

theorem orderedInsert_skips_regular (a r : FontEntry)
    (ha : ¬ lowerData a.style = "regular".data)
    (hr : lowerData r.style = "regular".data) (s : List FontEntry) :
    List.orderedInsert (fun x y => styleCompare x y ≤ 0) a (r :: s)
      = r :: List.orderedInsert (fun x y => styleCompare x y ≤ 0) a s := by
  have hc : ¬ (styleCompare a r ≤ 0) := by
    simp only [styleCompare, if_neg ha, if_pos hr]
    decide
  simp only [List.orderedInsert]
  rw [if_neg hc]

theorem orderedInsert_nonregular_eq (a : FontEntry)
    (ha : ¬ lowerData a.style = "regular".data) :
    ∀ s : List FontEntry, (∀ x ∈ s, ¬ lowerData x.style = "regular".data) →
      List.orderedInsert (fun x y => styleCompare x y ≤ 0) a s
        = List.orderedInsert (fun x y => styleLocaleCompare x y ≤ 0) a s
  | [] => fun _ => rfl
  | b :: t => fun hs => by
    have hb := hs b (List.mem_cons_self _ _)
    have hiff : (styleCompare a b ≤ 0) ↔ (styleLocaleCompare a b ≤ 0) := by
      simp only [styleCompare, styleLocaleCompare, if_neg ha, if_neg hb]
    simp only [List.orderedInsert]
    by_cases hc : styleCompare a b ≤ 0
    · rw [if_pos hc, if_pos (hiff.mp hc)]
    · rw [if_neg hc, if_neg (fun h => hc (hiff.mpr h)),
        orderedInsert_nonregular_eq a ha t (fun x hx => hs x (List.mem_cons_of_mem _ hx))]

theorem insertionSort_nonregular_eq :
    ∀ l : List FontEntry, (∀ x ∈ l, ¬ lowerData x.style = "regular".data) →
      List.insertionSort (fun x y => styleCompare x y ≤ 0) l
        = List.insertionSort (fun x y => styleLocaleCompare x y ≤ 0) l
  | [] => fun _ => rfl
  | a :: t => fun hl => by
    have ha := hl a (List.mem_cons_self _ _)
    have ht : ∀ x ∈ t, ¬ lowerData x.style = "regular".data :=
      fun x hx => hl x (List.mem_cons_of_mem _ hx)
    simp only [List.insertionSort]
    rw [insertionSort_nonregular_eq t ht]
    exact orderedInsert_nonregular_eq a ha _
      fun x hx => ht x ((List.perm_insertionSort _ t).mem_iff.mp hx)

theorem insertionSort_regular_first :
    ∀ (l₁ : List FontEntry) (r : FontEntry) (l₂ : List FontEntry),
      lowerData r.style = "regular".data →
      (∀ x ∈ l₁ ++ l₂, ¬ lowerData x.style = "regular".data) →
      List.insertionSort (fun x y => styleCompare x y ≤ 0) (l₁ ++ r :: l₂)
        = r :: List.insertionSort (fun x y => styleLocaleCompare x y ≤ 0) (l₁ ++ l₂)
  | [], r, l₂ => fun hr h => by
    simp only [List.nil_append, List.insertionSort]
    rw [insertionSort_nonregular_eq l₂ h]
    exact orderedInsert_regular_head r hr _
  | a :: t, r, l₂ => fun hr h => by
    have ha := h a (List.mem_cons_self _ _)
    have ht : ∀ x ∈ t ++ l₂, ¬ lowerData x.style = "regular".data :=
      fun x hx => h x (List.mem_cons_of_mem _ hx)
    have hrec := insertionSort_regular_first t r l₂ hr ht
    calc List.insertionSort (fun x y => styleCompare x y ≤ 0) ((a :: t) ++ r :: l₂)
        = List.orderedInsert (fun x y => styleCompare x y ≤ 0) a
            (List.insertionSort (fun x y => styleCompare x y ≤ 0) (t ++ r :: l₂)) := rfl
      _ = List.orderedInsert (fun x y => styleCompare x y ≤ 0) a
            (r :: List.insertionSort (fun x y => styleLocaleCompare x y ≤ 0) (t ++ l₂)) := by
            rw [hrec]
      _ = r :: List.orderedInsert (fun x y => styleCompare x y ≤ 0) a
            (List.insertionSort (fun x y => styleLocaleCompare x y ≤ 0) (t ++ l₂)) :=
            orderedInsert_skips_regular a r ha hr _
      _ = r :: List.orderedInsert (fun x y => styleLocaleCompare x y ≤ 0) a
            (List.insertionSort (fun x y => styleLocaleCompare x y ≤ 0) (t ++ l₂)) := by
            rw [orderedInsert_nonregular_eq a ha _
              fun x hx => ht x ((List.perm_insertionSort _ _).mem_iff.mp hx)]
      _ = r :: List.insertionSort (fun x y => styleLocaleCompare x y ≤ 0) ((a :: t) ++ l₂) :=
            rfl

theorem jsSort_locale_sorted (l : List FontEntry) :
    List.Pairwise (fun a b => localeCompare a.style b.style ≤ 0)
      (jsSort styleLocaleCompare l) := by
  haveI : IsTotal FontEntry (fun a b => localeCompare a.style b.style ≤ 0) :=
    ⟨fun a b => localeCompare_total a.style b.style⟩
  haveI : IsTrans FontEntry (fun a b => localeCompare a.style b.style ≤ 0) :=
    ⟨fun _ _ _ h1 h2 => localeCompare_trans h1 h2⟩
  exact List.sorted_insertionSort (fun a b : FontEntry => localeCompare a.style b.style ≤ 0) l

/-- C8.  In a family with exactly one style whose label lowercases to
"regular", the aggregator's sort puts that style first, and the
remaining styles follow sorted (stably) by `localeCompare` on their
labels — alphabetically — as witnessed by the sortedness and
permutation facts about the tail; `["Bold", "Regular", "Italic"]`
sorts to `["Regular", "Bold", "Italic"]`. -/
theorem c8_regular_first_then_alphabetical (l₁ : List FontEntry) (r : FontEntry)
    (l₂ : List FontEntry) (hr : lowerData r.style = "regular".data)
    (hnr : ∀ x ∈ l₁ ++ l₂, ¬ lowerData x.style = "regular".data) :
    jsSort styleCompare (l₁ ++ r :: l₂) = r :: jsSort styleLocaleCompare (l₁ ++ l₂) ∧
    List.Pairwise (fun a b => localeCompare a.style b.style ≤ 0)
      (jsSort styleLocaleCompare (l₁ ++ l₂)) ∧
    (jsSort styleLocaleCompare (l₁ ++ l₂)).Perm (l₁ ++ l₂) ∧
    jsSort styleCompare
        [⟨"font-src/Ubuntu-Bold.ttf", "Bold", "Ubuntu-Bold.ttf"⟩,
          ⟨"font-src/Ubuntu-Regular.ttf", "Regular", "Ubuntu-Regular.ttf"⟩,
          ⟨"font-src/Ubuntu-Italic.ttf", "Italic", "Ubuntu-Italic.ttf"⟩]
      = [⟨"font-src/Ubuntu-Regular.ttf", "Regular", "Ubuntu-Regular.ttf"⟩,
          ⟨"font-src/Ubuntu-Bold.ttf", "Bold", "Ubuntu-Bold.ttf"⟩,
          ⟨"font-src/Ubuntu-Italic.ttf", "Italic", "Ubuntu-Italic.ttf"⟩] :=
  ⟨insertionSort_regular_first l₁ r l₂ hr hnr, jsSort_locale_sorted _,
    List.perm_insertionSort _ _, by decide⟩

/-- C8 witness: the theorem applied to the Bold/Regular/Italic family. -/
theorem c8_regular_first_then_alphabetical_witness :
    jsSort styleCompare
        [⟨"font-src/Ubuntu-Bold.ttf", "Bold", "Ubuntu-Bold.ttf"⟩,
          ⟨"font-src/Ubuntu-Regular.ttf", "Regular", "Ubuntu-Regular.ttf"⟩,
          ⟨"font-src/Ubuntu-Italic.ttf", "Italic", "Ubuntu-Italic.ttf"⟩]
      = [⟨"font-src/Ubuntu-Regular.ttf", "Regular", "Ubuntu-Regular.ttf"⟩,
          ⟨"font-src/Ubuntu-Bold.ttf", "Bold", "Ubuntu-Bold.ttf"⟩,
          ⟨"font-src/Ubuntu-Italic.ttf", "Italic", "Ubuntu-Italic.ttf"⟩] :=
  (c8_regular_first_then_alphabetical
    [⟨"font-src/Ubuntu-Bold.ttf", "Bold", "Ubuntu-Bold.ttf"⟩]
    ⟨"font-src/Ubuntu-Regular.ttf", "Regular", "Ubuntu-Regular.ttf"⟩
    [⟨"font-src/Ubuntu-Italic.ttf", "Italic", "Ubuntu-Italic.ttf"⟩]
    (by decide) (by decide)).2.2.2
